import Mathlib

/-!
# Verification of `fnet/cli/predict.py`

A shallow embedding of the prediction CLI of this repository, together with
theorems checking the natural-language specification against it.

Modelling conventions:
* Python strings are modelled as `List Char` (`Str`), so that the string
  operations the script uses (`str.split`, `os.path.basename`,
  `os.path.join`, `str.isdigit`, concatenation) become executable Lean
  functions amenable to induction.
* The filesystem is modelled explicitly as data (lists of directories and of
  name/content pairs) threaded through the functions that touch it.
* `pandas.DataFrame` values are modelled by the `DF` structure: an ordered
  list of row labels, an ordered list of column labels, and an association
  list of present (non-null) cells; an absent cell models a pandas `NaN`.
-/

/-- Python strings, modelled as lists of characters. -/
abbrev Str := List Char

/-- Embed a Lean string literal into the model. -/
def str (s : String) : Str := s.data

/-- Python `s.split(sep)` for a single-character separator `c`: splits at every
occurrence of `c`, keeping empty fragments, and returns `[s]` when `c` does not
occur (so the result is never empty). -/
def splitOnChar (c : Char) : Str → List Str
  | [] => [[]]
  | x :: xs =>
    match splitOnChar c xs with
    | [] => [[]]
    | h :: t => if x = c then [] :: h :: t else (x :: h) :: t

/-- Python `sep.join(parts)`. -/
def joinStr (sep : Str) : List Str → Str
  | [] => []
  | [x] => x
  | x :: xs => x ++ sep ++ joinStr sep xs

deriving instance DecidableEq for Except

/-- `os.path.basename`: the part of the path after the last `/`. -/
def pyBasename (p : Str) : Str :=
  (splitOnChar '/' p).getLastD []

/-- `os.path.join a b` for the cases the script exercises: `b` relative. -/
def pyJoin (a b : Str) : Str :=
  if a = [] then b
  else if a.getLast? = some '/' then a ++ b
  else a ++ '/' :: b

/-- The parsed model definition produced by `parse_model`:
`path` (storage location), `options` (flags), `name` (display name). -/
structure ModelDef where
  path : Str
  options : List Str
  name : Str

deriving DecidableEq, Repr

/-- `parse_model` from `fnet/cli/predict.py` (lines 86-99): split the model
string on `:`; more than one `:` is an error; the part after the `:`, when
present, is comma-split into options; the display name is the basename of the
location joined with the options by `.`. -/
def parse_model (model_str : Str) : Except Str ModelDef :=
  let parts := splitOnChar ':' model_str
  if 2 < parts.length then
    Except.error (str "Multiple colons in specified model")
  else
    let name := pyBasename (parts.headD [])
    let options := if parts.length = 2 then splitOnChar ',' (parts.getD 1 []) else []
    Except.ok { path := parts.headD [], options := options,
                name := joinStr (str ".") (name :: options) }

/-- The index selection of `main`: the explicit `--idx_sel` list when given,
otherwise the dataset's natural index order, then Python-sliced
`[:n_images if n_images > 0 else None]`. -/
def selectIndices (idxSel : Option (List Int)) (naturalIndex : List Int)
    (nImages : Int) : List Int :=
  let base := idxSel.getD naturalIndex
  if 0 < nImages then base.take nImages.toNat else base

/-- The external capabilities `get_dataset` consults: `str_to_object`
resolution, `os.path.exists`, `os.path.isdir` and `files_from_dir`. -/
structure DatasetEnv where
  isCallable : Str → Bool
  pathExists : Str → Bool
  isDir : Str → Bool
  filesFromDir : Str → List Str

/-- The resolved sample source returned by `get_dataset`: either a dataset
factory invocation or a `TiffDataset` over a list of tif paths (with no
target column). -/
inductive DatasetSource where
  | factory (name : Str) (kwargs : List (Str × Str))
  | tiffs (paths : List Str)

deriving DecidableEq, Repr

/-- `get_dataset` from `fnet/cli/predict.py` (lines 22-53): exactly one of
`--dataset` and `--path_tif` must be given, else a `ValueError`. -/
def get_dataset (env : DatasetEnv) (dataset : Option Str)
    (datasetKwargs : List (Str × Str)) (pathTif : Option Str) :
    Except Str DatasetSource :=
  if ((if dataset.isSome then 1 else 0) + (if pathTif.isSome then 1 else 0) : Nat) ≠ 1 then
    Except.error (str "Must specify one input source type")
  else
    match dataset with
    | some d =>
      if env.isCallable d then Except.ok (DatasetSource.factory d datasetKwargs)
      else Except.error (str "must be callable")
    | none =>
      match pathTif with
      | some p =>
        if ¬ env.pathExists p then Except.error (str "Path does not exist")
        else Except.ok (DatasetSource.tiffs (if env.isDir p then env.filesFromDir p else [p]))
      | none => Except.error (str "NotImplementedError")

/-- A tif image payload, abstracted to opaque data. -/
abbrev Img := List Int

/-- The filesystem state touched by `save_tif`: a set of directories and a
mapping from file paths to contents. -/
structure FS where
  dirs : List Str
  files : List (Str × Img)

deriving DecidableEq, Repr

/-- `os.path.exists` over the modelled filesystem. -/
def FS.pathExists (fs : FS) (p : Str) : Bool :=
  fs.dirs.contains p || (fs.files.map Prod.fst).contains p

/-- `os.path.relpath path start` for the case the script exercises: `start` a
proper ancestor directory of `path`. -/
def pyRelpath (path start : Str) : Str :=
  if (start ++ ['/']).isPrefixOf path then path.drop (start.length + 1) else path

/-- `save_tif` from `fnet/cli/predict.py` (lines 56-83): ensure subdirectory
`tifs` of the root exists, write the array there under `fname` (tifffile
`compress=2`, an external detail), and return the path relative to the root. -/
def save_tif (fname : Str) (ar : Img) (path_root : Str) (fs : FS) : FS × Str :=
  let path_tif_dir := pyJoin path_root (str "tifs")
  let fs1 := if fs.pathExists path_tif_dir then fs
             else { fs with dirs := fs.dirs ++ [path_tif_dir] }
  let path_save := pyJoin path_tif_dir fname
  ({ fs1 with files := fs1.files.filter (fun e => ¬ e.1 = path_save) ++ [(path_save, ar)] },
   pyRelpath path_save path_root)

/-- The loop of `main`, recording Result Table Accumulator invocations: at
1-based counter `count`, after appending the sample's row, `save_csv` is called
when `count % 8 == 0 or idx == indices[-1]`. Each event records the counter and
the batch accumulated so far (rows abstracted by their sample index). `last` is
`indices[-1]`, evaluated against the full sequence before the loop. -/
def mainLoopGo (last : Int) (count : Nat) (acc : List Int) :
    List Int → List (Nat × List Int)
  | [] => []
  | idx :: rest =>
    (if (count + 1) % 8 == 0 || idx == last then [(count + 1, acc ++ [idx])] else [])
      ++ mainLoopGo last (count + 1) (acc ++ [idx]) rest

/-- The sequence of flush events of a run of `main` over `indices`. -/
def flushEvents (indices : List Int) : List (Nat × List Int) :=
  mainLoopGo (indices.getLastD 0) 0 [] indices

/-- A result-table cell value, opaque (paths and metric scores alike). -/
abbrev Val := Int

/-- Model of a `pandas.DataFrame` with an index: the index column's name,
ordered row labels, ordered non-index column labels, and the present
(non-null) cells as an association list; an absent cell models `NaN`. -/
structure DF where
  indexName : Str
  rows : List Int
  cols : List Str
  cells : List ((Int × Str) × Val)

deriving DecidableEq, Repr

/-- First-match lookup of cell `(i, c)` in a cell list (`none` = null). -/
def cellsLookup (cells : List ((Int × Str) × Val)) (i : Int) (c : Str) : Option Val :=
  (cells.find? (fun e => e.1 == (i, c))).map (fun e => e.2)

/-- The value of cell `(i, c)` of a table (`none` = null/absent). -/
def DF.lookup (df : DF) (i : Int) (c : Str) : Option Val :=
  cellsLookup df.cells i c

/-- The cells of row `i` over columns `cols` with cell function `f`. -/
def rowCells (i : Int) (cols : List Str) (f : Int → Str → Option Val) :
    List ((Int × Str) × Val) :=
  cols.filterMap (fun c => (f i c).map (fun v => ((i, c), v)))

/-- All cells of a table with rows `rows`, columns `cols`, cell function `f`,
enumerated row-major. -/
def canonCells (rows : List Int) (cols : List Str) (f : Int → Str → Option Val) :
    List ((Int × Str) × Val) :=
  rows.flatMap (fun i => rowCells i cols f)

/-- Well-formedness of a table: unique labels, one cell per position, cells
only at existing row/column labels. -/
def DF.WF (df : DF) : Prop :=
  df.rows.Nodup ∧ df.cols.Nodup ∧ (df.cells.map Prod.fst).Nodup ∧
    ∀ e ∈ df.cells, e.1.1 ∈ df.rows ∧ e.1.2 ∈ df.cols

instance (df : DF) : Decidable df.WF := by
  unfold DF.WF
  infer_instance

/-- `pandas.Index.union` as exercised through `combine_first` and row/column
alignment: identical indexes are kept as-is, otherwise the union is
deduplicated and sorted. -/
def idxUnion {α : Type} [LinearOrder α] [DecidableEq α] (a b : List α) : List α :=
  if a = b then a else List.insertionSort (fun x y => x ≤ y) (a ++ b).dedup

/-- `df.combine_first(df_old)` from pandas: prefer `df`'s non-null cells,
filling nulls from `df_old`; row and column label sets are unioned. -/
def DF.combine_first (df dfOld : DF) : DF :=
  { indexName := df.indexName
    rows := idxUnion df.rows dfOld.rows
    cols := idxUnion df.cols dfOld.cols
    cells := canonCells (idxUnion df.rows dfOld.rows) (idxUnion df.cols dfOld.cols)
      (fun i c => (df.lookup i c).or (dfOld.lookup i c)) }

/-- `df.sort_index(axis=1)`: reorder the columns (and the stored cells)
lexicographically; rows are untouched. -/
def DF.sortCols (df : DF) : DF :=
  { df with
    cols := List.insertionSort (fun a b => a ≤ b) df.cols,
    cells := canonCells df.rows (List.insertionSort (fun a b => a ≤ b) df.cols) df.lookup }

/-- `save_csv` from `fnet/cli/predict.py` (lines 102-111): when a table exists
at the destination, load it (first column as index) and merge via
`combine_first` (new values win, old retained); sort columns; persist. `store`
is the table currently on disk; the returned table is the one written back
(the retry-on-OSError write is an external effect). -/
def save_csv (store : Option DF) (df : DF) : DF :=
  (match store with
   | some dfOld => df.combine_first dfOld
   | none => df).sortCols

/-- Python `s.isdigit()` (over the ASCII strings the script builds). -/
def pyIsdigit (s : Str) : Bool :=
  !s.isEmpty && s.all (fun ch => ch.isDigit)

/-- Decimal digits of a natural number, with a structural fuel bound (the
fuel only needs to exceed the number of digits; `natDigits` supplies it). -/
def natDigitsAux : Nat → Nat → Str
  | 0, _ => []
  | fuel + 1, n =>
    if n < 10 then [Char.ofNat (48 + n)]
    else natDigitsAux fuel (n / 10) ++ [Char.ofNat (48 + n % 10)]

/-- Decimal digits of a natural number (Python `str(n)` for `n ≥ 0`). -/
def natDigits (n : Nat) : Str := natDigitsAux (n + 1) n

/-- Python `str(i)` for integers. -/
def pyStr (i : Int) : Str :=
  if i < 0 then '-' :: natDigits (-i).toNat else natDigits i.toNat

/-- Value of a digit string (helper for Python `int(s)`). -/
def digitsToNat (s : Str) : Nat :=
  s.foldl (fun acc ch => acc * 10 + (ch.toNat - 48)) 0

/-- Python `int(s)` for the strings this script feeds it (digit strings and
the literal `"-1"`). -/
def pyInt (s : Str) : Int :=
  if s.headD ' ' = '-' then -(digitsToNat s.tail : Int) else (digitsToNat s : Int)

/-- One step of the uniquify loop of `save_args_as_json` (lines 130-137):
take the `.`-separated component one before last, bump it if it is a number
(else start at 0), and rebuild `predict_options.<n>.json` under the save
directory. -/
def nextSnapshotPath (path_save_dir path_json : Str) : Str :=
  let parts := splitOnChar '.' path_json
  let number := parts.getD (parts.length - 2) []
  let number2 := if pyIsdigit number then number else str "-1"
  let number3 := pyStr (pyInt number2 + 1)
  pyJoin path_save_dir (joinStr (str ".") [str "predict_options", number3, str "json"])

/-- The `while os.path.exists(path_json)` loop of `save_args_as_json`, with an
explicit fuel bound on the number of iterations (`none` = fuel exhausted; a
fuel of one more than the number of existing files always suffices, see
`C9_snapshot_non_overwrite`). `fs` is the set of existing file paths with
their contents. -/
def findSnapshotPath (fs : List (Str × Nat)) (path_save_dir : Str) :
    Nat → Str → Option Str
  | 0, path_json =>
    if path_json ∈ fs.map Prod.fst then none else some path_json
  | fuel + 1, path_json =>
    if path_json ∈ fs.map Prod.fst then
      findSnapshotPath fs path_save_dir fuel (nextSnapshotPath path_save_dir path_json)
    else some path_json

/-- `save_args_as_json` (lines 114-140): starting from
`<dir>/predict_options.json`, find the first name not on disk by bumping the
numeric suffix, then write the configuration (abstracted as `content`) there. -/
def save_args_as_json (fs : List (Str × Nat)) (path_save_dir : Str)
    (content : Nat) : Option (List (Str × Nat)) :=
  match findSnapshotPath fs path_save_dir (fs.length + 1)
      (pyJoin path_save_dir (str "predict_options.json")) with
  | some p => some (fs ++ [(p, content)])
  | none => none

/-- The prefix `os.path.join dir ·` prepends (empty dir, slash-terminated
dir, or dir plus a slash). -/
def dirPrefix (dir : Str) : Str :=
  if dir = [] then [] else if dir.getLast? = some '/' then dir else dir ++ ['/']

/-- The sequence of snapshot-path candidates the uniquify loop of
`save_args_as_json` visits: the default name first, then numbered names. -/
def snapIter (dir : Str) : Nat → Str
  | 0 => pyJoin dir (str "predict_options.json")
  | j + 1 => pyJoin dir (str "predict_options." ++ natDigits j ++ str ".json")

namespace SplitLemmas

theorem splitOnChar_ne_nil (c : Char) (l : Str) : splitOnChar c l ≠ [] := by
  cases l with
  | nil => simp [splitOnChar]
  | cons x xs =>
    simp only [splitOnChar]
    cases h : splitOnChar c xs with
    | nil => simp
    | cons hd tl =>
      simp only []
      split <;> simp

theorem length_splitOnChar (c : Char) (l : Str) :
    (splitOnChar c l).length = l.count c + 1 := by
  induction l with
  | nil => simp [splitOnChar]
  | cons x xs ih =>
    simp only [splitOnChar]
    cases h : splitOnChar c xs with
    | nil => exact absurd h (splitOnChar_ne_nil c xs)
    | cons hd tl =>
      rw [h] at ih
      simp only []
      by_cases hx : x = c
      · subst hx
        rw [if_pos rfl]
        simp only [List.length_cons, List.count_cons_self]
        simp only [List.length_cons] at ih
        omega
      · simp only [if_neg hx, List.length_cons]
        rw [List.count_cons_of_ne (Ne.symm hx)]
        simp only [List.length_cons] at ih
        omega

theorem splitOnChar_of_not_mem {c : Char} {l : Str} (h : c ∉ l) :
    splitOnChar c l = [l] := by
  induction l with
  | nil => rfl
  | cons x xs ih =>
    simp only [List.mem_cons, not_or] at h
    have hx : ¬ x = c := fun e => h.1 e.symm
    simp only [splitOnChar, ih h.2, if_neg hx]

theorem splitOnChar_append {c : Char} {a b : Str} (h : c ∉ a) :
    splitOnChar c (a ++ c :: b) = a :: splitOnChar c b := by
  induction a with
  | nil =>
    simp only [List.nil_append, splitOnChar]
    cases hb : splitOnChar c b with
    | nil => exact absurd hb (splitOnChar_ne_nil c b)
    | cons hd tl => simp
  | cons x xs ih =>
    simp only [List.mem_cons, not_or] at h
    have hxs := ih h.2
    have hx : ¬ x = c := fun e => h.1 e.symm
    simp only [List.cons_append, splitOnChar, List.append_eq, hxs, if_neg hx]

end SplitLemmas

open SplitLemmas

namespace ParseModelLemmas

theorem error_of_two_colons {s : Str} (h2 : 2 ≤ s.count ':') :
    ∃ e, parse_model s = Except.error e := by
  refine ⟨str "Multiple colons in specified model", ?_⟩
  unfold parse_model
  rw [if_pos]
  rw [length_splitOnChar]
  omega

theorem one_colon {loc fl : Str} (hloc : ':' ∉ loc) (hfl : ':' ∉ fl) :
    parse_model (loc ++ ':' :: fl) =
      Except.ok ⟨loc, splitOnChar ',' fl,
        joinStr (str ".") (pyBasename loc :: splitOnChar ',' fl)⟩ := by
  unfold parse_model
  rw [splitOnChar_append hloc, splitOnChar_of_not_mem hfl]
  simp

theorem no_colon {s : Str} (hs : ':' ∉ s) :
    parse_model s = Except.ok ⟨s, [], pyBasename s⟩ := by
  unfold parse_model
  rw [splitOnChar_of_not_mem hs]
  simp [joinStr]

end ParseModelLemmas

/-- C5: the Model Reference Parser splits on the single `:` separator into a
location and an optional comma-split flags sequence (empty when the flags part
is absent), the display name is the location's basename joined with the flags
by `.`, and two or more separators are an error. -/
theorem C5_parse_model (s loc fl : Str) :
    (2 ≤ s.count ':' → ∃ e, parse_model s = Except.error e) ∧
    (':' ∉ loc → ':' ∉ fl →
      parse_model (loc ++ ':' :: fl) =
        Except.ok ⟨loc, splitOnChar ',' fl,
          joinStr (str ".") (pyBasename loc :: splitOnChar ',' fl)⟩) ∧
    (':' ∉ s → parse_model s = Except.ok ⟨s, [], pyBasename s⟩) :=
  ⟨ParseModelLemmas.error_of_two_colons,
   fun hloc hfl => ParseModelLemmas.one_colon hloc hfl,
   ParseModelLemmas.no_colon⟩

/-- Witness for C5 at the spec's own examples. -/
theorem C5_parse_model_witness :
    (∃ e, parse_model (str "models/a:flag1:flag2") = Except.error e) ∧
    parse_model (str "models/a" ++ ':' :: str "flag1,flag2") =
      Except.ok ⟨str "models/a", splitOnChar ',' (str "flag1,flag2"),
        joinStr (str ".") (pyBasename (str "models/a") ::
          splitOnChar ',' (str "flag1,flag2"))⟩ ∧
    parse_model (str "models/a:flag1,flag2") =
      Except.ok ⟨str "models/a", [str "flag1", str "flag2"], str "a.flag1.flag2"⟩ :=
  ⟨(C5_parse_model (str "models/a:flag1:flag2") [] []).1 (by decide),
   (C5_parse_model [] (str "models/a") (str "flag1,flag2")).2.1 (by decide) (by decide),
   by decide⟩

/-- C10: a model string ending in the separator (empty flags part) parses to a
flags sequence containing exactly one empty string, and the display name is the
location's basename followed by a trailing dot. -/
theorem C10_trailing_separator (loc : Str) (h : ':' ∉ loc) :
    parse_model (loc ++ [':']) =
      Except.ok ⟨loc, [[]], pyBasename loc ++ ['.']⟩ := by
  have h1 := @ParseModelLemmas.one_colon loc [] h (by simp)
  rw [h1]
  simp [splitOnChar, joinStr, str]

/-- Witness for C10 at `"models/a:"`. -/
theorem C10_trailing_separator_witness :
    parse_model (str "models/a" ++ [':']) =
      Except.ok ⟨str "models/a", [[]], pyBasename (str "models/a") ++ ['.']⟩ ∧
    pyBasename (str "models/a") ++ ['.'] = str "a." :=
  ⟨C10_trailing_separator (str "models/a") (by decide), by decide⟩

/-! ## Index selection (`main`, lines 173-175) -/

/-- C7: the processed indices are exactly the prefix of the chosen sequence of
the capped length, in original order; a non-positive cap leaves the sequence
untruncated. -/
theorem C7_index_truncation (idxSel : Option (List Int)) (naturalIndex : List Int)
    (nImages : Int) :
    selectIndices idxSel naturalIndex nImages <+: idxSel.getD naturalIndex ∧
    (0 < nImages →
      (selectIndices idxSel naturalIndex nImages).length =
        min nImages.toNat (idxSel.getD naturalIndex).length) ∧
    (nImages ≤ 0 → selectIndices idxSel naturalIndex nImages = idxSel.getD naturalIndex) := by
  unfold selectIndices
  refine ⟨?_, ?_, ?_⟩
  · split
    · exact List.take_prefix _ _
    · exact List.prefix_refl _
  · intro h
    rw [if_pos h, List.length_take]
  · intro h
    rw [if_neg (by omega)]

/-- Witness for C7 at the spec's example: order `[3,1,4,1,5]`, cap 3. -/
theorem C7_index_truncation_witness :
    selectIndices (some [3, 1, 4, 1, 5]) [] 3 = [3, 1, 4] ∧
    selectIndices (some [3, 1, 4, 1, 5]) [] 3 <+: [3, 1, 4, 1, 5] ∧
    (selectIndices (some [3, 1, 4, 1, 5]) [] 3).length =
      min (3 : Int).toNat [3, 1, 4, 1, 5].length ∧
    selectIndices (some [3, 1, 4, 1, 5]) [] (-1) = [3, 1, 4, 1, 5] :=
  ⟨by decide,
   (C7_index_truncation (some [3, 1, 4, 1, 5]) [] 3).1,
   (C7_index_truncation (some [3, 1, 4, 1, 5]) [] 3).2.1 (by decide),
   (C7_index_truncation (some [3, 1, 4, 1, 5]) [] (-1)).2.2 (by decide)⟩

/-! ## Dataset resolution (`get_dataset`, lines 22-53) -/

/-- C8: supplying both a dataset factory identifier and a filesystem path, or
supplying neither, is a configuration error (raised by `get_dataset`, which
`main` calls before any sample is processed). -/
theorem C8_dataset_source_exclusivity (env : DatasetEnv) (dataset : Option Str)
    (kwargs : List (Str × Str)) (pathTif : Option Str)
    (h : (dataset.isSome ∧ pathTif.isSome) ∨ (dataset.isNone ∧ pathTif.isNone)) :
    get_dataset env dataset kwargs pathTif =
      Except.error (str "Must specify one input source type") := by
  cases dataset <;> cases pathTif <;> simp_all [get_dataset]

/-- Witness for C8: both sources given, and neither source given. -/
theorem C8_dataset_source_exclusivity_witness :
    get_dataset ⟨fun _ => true, fun _ => true, fun _ => false, fun _ => []⟩
        (some (str "fnet.data.TiffDataset")) [] (some (str "a.tif")) =
      Except.error (str "Must specify one input source type") ∧
    get_dataset ⟨fun _ => true, fun _ => true, fun _ => false, fun _ => []⟩
        none [] none =
      Except.error (str "Must specify one input source type") :=
  ⟨C8_dataset_source_exclusivity _ _ _ _ (Or.inl ⟨rfl, rfl⟩),
   C8_dataset_source_exclusivity _ _ _ _ (Or.inr ⟨rfl, rfl⟩)⟩

/-! ## Image persistence (`save_tif`, lines 56-83) -/

/-- Counterexample to C4: the subdirectory is `tifs`, not `images`; on a fresh
filesystem the file lands at `root/tifs/0_signal.tif` and the returned
relative path is `tifs/0_signal.tif`. -/
theorem C4_counterexample :
    (save_tif (str "0_signal.tif") [7] (str "root") ⟨[], []⟩).2 ≠
        str "images/0_signal.tif" ∧
    (save_tif (str "0_signal.tif") [7] (str "root") ⟨[], []⟩).1.files =
        [(str "root/tifs/0_signal.tif", [7])] ∧
    (save_tif (str "0_signal.tif") [7] (str "root") ⟨[], []⟩).2 =
        str "tifs/0_signal.tif" := by
  decide

namespace SaveTifLemmas

theorem isPrefixOf_append_self (a b : Str) : a.isPrefixOf (a ++ b) = true := by
  induction a with
  | nil => simp [List.isPrefixOf]
  | cons x xs ih => simp [List.isPrefixOf, ih]

theorem pyRelpath_append (root rest : Str) :
    pyRelpath ((root ++ ['/']) ++ rest) root = rest := by
  unfold pyRelpath
  rw [if_pos (isPrefixOf_append_self (root ++ ['/']) rest)]
  rw [List.drop_left' (by simp)]

theorem pyJoin_root_tifs {root : Str} (h1 : root ≠ []) (h2 : root.getLast? ≠ some '/') :
    pyJoin root (str "tifs") = root ++ str "/tifs" := by
  unfold pyJoin
  rw [if_neg h1, if_neg h2]
  rfl

theorem pyJoin_tifs_fname (root fname : Str) :
    pyJoin (root ++ str "/tifs") fname = (root ++ str "/tifs") ++ '/' :: fname := by
  have hlast : (root ++ str "/tifs").getLast? = some 's' := by
    rw [List.getLast?_append_of_ne_nil root (by simp [str])]
    rfl
  unfold pyJoin
  rw [if_neg (by simp [str]), if_neg (by rw [hlast]; decide)]

end SaveTifLemmas

/-- Amended C4: for every file name, array and output root (root nonempty, not
slash-terminated), the Image Persister writes the array under the fixed
subdirectory `tifs` of the output root (creating that subdirectory if absent,
leaving the directory set unchanged if already present) and returns the written
file's path relative to the output root, so image paths have the form
`<root>/tifs/<identifier>_<role>.tif`. -/
theorem C4_image_persister (fname : Str) (ar : Img) (root : Str) (fs : FS)
    (h1 : root ≠ []) (h2 : root.getLast? ≠ some '/') :
    (save_tif fname ar root fs).2 = str "tifs/" ++ fname ∧
    (root ++ str "/tifs/" ++ fname) ∈ (save_tif fname ar root fs).1.files.map Prod.fst ∧
    (save_tif fname ar root fs).1.dirs =
      (if fs.pathExists (root ++ str "/tifs") then fs.dirs
       else fs.dirs ++ [root ++ str "/tifs"]) := by
  have e1 := SaveTifLemmas.pyJoin_root_tifs h1 h2
  have e2 := SaveTifLemmas.pyJoin_tifs_fname root fname
  have epath : (root ++ str "/tifs") ++ '/' :: fname = root ++ str "/tifs/" ++ fname := by
    simp [str]
  have erel : pyRelpath (root ++ str "/tifs/" ++ fname) root = str "tifs/" ++ fname := by
    have : root ++ str "/tifs/" ++ fname = (root ++ ['/']) ++ (str "tifs/" ++ fname) := by
      simp [str]
    rw [this, SaveTifLemmas.pyRelpath_append]
  refine ⟨?_, ?_, ?_⟩
  · simp only [save_tif, e1, e2, epath, erel]
  · simp only [save_tif, e1, e2, epath]
    simp
  · simp only [save_tif, e1, e2, epath]
    split <;> simp

/-- Witness for C4 (amended) on a concrete root and fresh filesystem. -/
theorem C4_image_persister_witness :
    (save_tif (str "0_signal.tif") [7] (str "root") ⟨[], []⟩).2 =
        str "tifs/" ++ str "0_signal.tif" ∧
    (str "root" ++ str "/tifs/" ++ str "0_signal.tif") ∈
        (save_tif (str "0_signal.tif") [7] (str "root") ⟨[], []⟩).1.files.map Prod.fst ∧
    (save_tif (str "0_signal.tif") [7] (str "root") ⟨[], []⟩).1.dirs =
      (if FS.pathExists ⟨[], []⟩ (str "root" ++ str "/tifs") then ([] : List Str)
       else [] ++ [str "root" ++ str "/tifs"]) :=
  C4_image_persister (str "0_signal.tif") [7] (str "root") ⟨[], []⟩
    (by decide) (by decide)

/-! ## The per-sample loop's flush schedule (`main`, lines 176-217) -/

namespace FlushLemmas

theorem mem_mainLoopGo (last : Int) (m : Nat) (b : List Int) (l : List Int) :
    ∀ (count : Nat) (acc : List Int),
    ((m, b) ∈ mainLoopGo last count acc l ↔
      count < m ∧ m ≤ count + l.length ∧ b = acc ++ l.take (m - count) ∧
        (m % 8 = 0 ∨ l.getD (m - count - 1) 0 = last)) := by
  induction l with
  | nil =>
    intro count acc
    simp only [mainLoopGo, List.not_mem_nil, List.length_nil, false_iff]
    intro h
    omega
  | cons idx rest ih =>
    intro count acc
    simp only [mainLoopGo, List.mem_append]
    constructor
    · rintro (hmem | hmem)
      · by_cases hc : ((count + 1) % 8 == 0 || idx == last) = true
        · rw [if_pos hc] at hmem
          simp only [List.mem_singleton, Prod.mk.injEq] at hmem
          obtain ⟨hm, hb⟩ := hmem
          subst hm
          subst hb
          have h1 : count + 1 - count = 1 := by omega
          have h0 : count + 1 - count - 1 = 0 := by omega
          refine ⟨by omega, by simp only [List.length_cons]; omega, ?_, ?_⟩
          · rw [h1]
            simp
          · simp only [Bool.or_eq_true, beq_iff_eq] at hc
            rw [h0, List.getD_cons_zero]
            exact hc
        · rw [if_neg hc] at hmem
          exact absurd hmem (by simp)
      · rw [ih (count + 1) (acc ++ [idx])] at hmem
        obtain ⟨hlt, hle, hb, hcond⟩ := hmem
        have h2 : m - count = (m - (count + 1)) + 1 := by omega
        refine ⟨by omega, by simp only [List.length_cons]; omega, ?_, ?_⟩
        · rw [h2, List.take_succ_cons, hb]
          simp
        · rcases hcond with h | h
          · exact Or.inl h
          · right
            have h3 : m - count - 1 = (m - (count + 1) - 1) + 1 := by omega
            rw [h3, List.getD_cons_succ]
            exact h
    · rintro ⟨hlt, hle, hb, hcond⟩
      by_cases hm : m = count + 1
      · subst hm
        left
        have h1 : count + 1 - count = 1 := by omega
        have h0 : count + 1 - count - 1 = 0 := by omega
        rw [h1] at hb
        rw [h0, List.getD_cons_zero] at hcond
        have hc : ((count + 1) % 8 == 0 || idx == last) = true := by
          simp only [Bool.or_eq_true, beq_iff_eq]
          exact hcond
        rw [if_pos hc]
        simp only [List.mem_singleton, Prod.mk.injEq]
        refine ⟨by trivial, ?_⟩
        rw [hb]
        simp
      · right
        rw [ih (count + 1) (acc ++ [idx])]
        have h2 : m - count = (m - (count + 1)) + 1 := by omega
        rw [h2, List.take_succ_cons] at hb
        have h3 : m - count - 1 = (m - (count + 1) - 1) + 1 := by omega
        rw [h3, List.getD_cons_succ] at hcond
        refine ⟨by omega, by simp only [List.length_cons] at hle; omega, ?_, hcond⟩
        rw [hb]
        simp

theorem getD_last {l : List Int} (h : l ≠ []) :
    l.getD (l.length - 1) 0 = l.getLastD 0 := by
  induction l with
  | nil => simp at h
  | cons x xs ih =>
    cases hxs : xs with
    | nil => simp
    | cons y ys =>
      rw [← hxs]
      have hne : xs ≠ [] := by rw [hxs]; simp
      have : (x :: xs).length - 1 = (xs.length - 1) + 1 := by
        rw [hxs]
        simp
      rw [this, List.getD_cons_succ, ih hne]
      rw [hxs]
      simp

end FlushLemmas

/-- Counterexample to C3: over the index sequence `[1, 2, 1]` the code flushes
after sample 1 as well (because `idx == indices[-1]` compares index values and
the last value occurs early), although 1 is neither a multiple of 8 nor the
final sample count. -/
theorem C3_counterexample :
    (1, [1]) ∈ flushEvents [1, 2, 1] ∧
    ¬ ((1 : Nat) % 8 = 0) ∧ (1 : Nat) ≠ ([1, 2, 1] : List Int).length ∧
    (flushEvents [1, 2, 1]).map Prod.fst = [1, 3] := by
  decide

/-- Amended C3: during a run over a non-empty index sequence, the Result Table
Accumulator is invoked exactly after every 8th completed sample and after every
sample whose index value equals the sequence's final index value (hence, in
particular, unconditionally after the final sample), each time with the batch
of all rows accumulated so far. -/
theorem C3_flush_schedule (indices : List Int) (m : Nat) (b : List Int)
    (hne : indices ≠ []) :
    ((m, b) ∈ flushEvents indices ↔
      1 ≤ m ∧ m ≤ indices.length ∧ b = indices.take m ∧
        (m % 8 = 0 ∨ indices.getD (m - 1) 0 = indices.getLastD 0)) ∧
    (indices.length, indices) ∈ flushEvents indices := by
  constructor
  · have h := FlushLemmas.mem_mainLoopGo (indices.getLastD 0) m b indices 0 []
    simpa [flushEvents] using h
  · rw [flushEvents, FlushLemmas.mem_mainLoopGo]
    have hlen : 0 < indices.length := List.length_pos.mpr hne
    refine ⟨hlen, by omega, ?_, Or.inr ?_⟩
    · simp
    · simp only [Nat.sub_zero]
      exact FlushLemmas.getD_last hne

/-- Witness for the amended C3 on a concrete 3-sample run. -/
theorem C3_flush_schedule_witness :
    (((3 : Nat), ([3, 1, 4] : List Int)) ∈ flushEvents [3, 1, 4] ↔
      1 ≤ 3 ∧ 3 ≤ ([3, 1, 4] : List Int).length ∧
        ([3, 1, 4] : List Int) = ([3, 1, 4] : List Int).take 3 ∧
        ((3 : Nat) % 8 = 0 ∨
          ([3, 1, 4] : List Int).getD (3 - 1) 0 = ([3, 1, 4] : List Int).getLastD 0)) ∧
    (([3, 1, 4] : List Int).length, ([3, 1, 4] : List Int)) ∈ flushEvents [3, 1, 4] :=
  C3_flush_schedule [3, 1, 4] 3 [3, 1, 4] (by decide)

/-! ## Result table accumulation (`save_csv`, lines 102-111) -/

namespace CsvLemmas

theorem or_self_or (a b : Option Val) : a.or (a.or b) = a.or b := by
  cases a <;> rfl

theorem or_self (a : Option Val) : a.or a = a := by
  cases a <;> rfl

theorem cellsLookup_append (l₁ l₂ : List ((Int × Str) × Val)) (i : Int) (c : Str) :
    cellsLookup (l₁ ++ l₂) i c = (cellsLookup l₁ i c).or (cellsLookup l₂ i c) := by
  unfold cellsLookup
  rw [List.find?_append]
  cases List.find? (fun e => e.1 == (i, c)) l₁ <;> simp [Option.or]

theorem mem_rowCells {i : Int} {cols : List Str} {f : Int → Str → Option Val}
    {e : (Int × Str) × Val} (h : e ∈ rowCells i cols f) :
    e.1.1 = i ∧ e.1.2 ∈ cols ∧ f i e.1.2 = some e.2 := by
  unfold rowCells at h
  rw [List.mem_filterMap] at h
  obtain ⟨c, hc, hfc⟩ := h
  cases hf : f i c with
  | none => rw [hf] at hfc; simp at hfc
  | some v =>
    rw [hf] at hfc
    simp at hfc
    cases hfc
    exact ⟨rfl, hc, hf⟩

theorem cellsLookup_rowCells_ne {i j : Int} (hij : j ≠ i) (cols : List Str)
    (f : Int → Str → Option Val) (c : Str) :
    cellsLookup (rowCells i cols f) j c = none := by
  unfold cellsLookup
  rw [List.find?_eq_none.mpr]
  · rfl
  · intro e he
    have h1 := (mem_rowCells he).1
    simp only [beq_iff_eq]
    intro hcontra
    rw [hcontra] at h1
    simp at h1
    exact hij h1

theorem cellsLookup_rowCells_self (i : Int) (cols : List Str)
    (f : Int → Str → Option Val) (c : Str) :
    cellsLookup (rowCells i cols f) i c = if c ∈ cols then f i c else none := by
  induction cols with
  | nil => simp [rowCells, cellsLookup]
  | cons c' rest ih =>
    simp only [rowCells, List.filterMap_cons]
    cases hf : f i c' with
    | none =>
      show cellsLookup (rowCells i rest f) i c = _
      rw [ih]
      by_cases hc : c = c'
      · subst hc
        simp [hf]
      · simp [List.mem_cons, hc]
    | some v =>
      show cellsLookup (((i, c'), v) :: rowCells i rest f) i c = _
      unfold cellsLookup
      rw [List.find?_cons]
      by_cases hc : c' = c
      · subst hc
        simp [hf]
      · have hbeq : (((i, c'), v).1 == (i, c)) = false := by
          simp [hc]
        rw [hbeq]
        show cellsLookup (rowCells i rest f) i c = _
        rw [ih]
        by_cases h2 : c ∈ rest
        · simp [h2, List.mem_cons]
        · have : ¬ c ∈ c' :: rest := by
            simp [List.mem_cons, h2]
            intro hcc
            exact hc hcc.symm
          simp [h2, this]

theorem cellsLookup_canonCells (rows : List Int) (cols : List Str)
    (f : Int → Str → Option Val) (i : Int) (c : Str) :
    cellsLookup (canonCells rows cols f) i c =
      if i ∈ rows ∧ c ∈ cols then f i c else none := by
  induction rows with
  | nil => simp [canonCells, cellsLookup]
  | cons i' rest ih =>
    simp only [canonCells, List.flatMap_cons] at *
    rw [cellsLookup_append]
    by_cases hi : i = i'
    · subst hi
      rw [cellsLookup_rowCells_self]
      by_cases hc : c ∈ cols
      · rw [if_pos hc]
        cases hf : f i c with
        | some v => simp [Option.or, hc]
        | none =>
          rw [Option.none_or, ih]
          by_cases h2 : i ∈ rest <;> simp [h2, hc, hf]
      · rw [if_neg hc, Option.none_or, ih]
        simp [hc]
    · rw [cellsLookup_rowCells_ne hi, Option.none_or, ih]
      simp [List.mem_cons, hi]

theorem canonCells_congr {rows : List Int} {cols : List Str}
    {f g : Int → Str → Option Val}
    (h : ∀ i ∈ rows, ∀ c ∈ cols, f i c = g i c) :
    canonCells rows cols f = canonCells rows cols g := by
  induction rows with
  | nil => rfl
  | cons i rest ih =>
    simp only [canonCells, List.flatMap_cons]
    have h1 : rowCells i cols f = rowCells i cols g := by
      unfold rowCells
      apply List.filterMap_congr
      intro c hc
      rw [h i (List.mem_cons_self i rest) c hc]
    rw [h1]
    have h2 := ih (fun j hj c hc => h j (List.mem_cons_of_mem i hj) c hc)
    simp only [canonCells] at h2
    rw [h2]

end CsvLemmas

namespace CsvLemmas

theorem mem_idxUnion {α : Type} [LinearOrder α] [DecidableEq α] {x : α} (a b : List α) :
    x ∈ idxUnion a b ↔ x ∈ a ∨ x ∈ b := by
  unfold idxUnion
  split
  case isTrue h =>
    constructor
    · exact fun hx => Or.inl hx
    · rintro (hx | hx)
      · exact hx
      · rw [h]; exact hx
  case isFalse h =>
    rw [(List.perm_insertionSort _ _).mem_iff, List.mem_dedup, List.mem_append]

theorem nodup_idxUnion {α : Type} [LinearOrder α] [DecidableEq α] {a b : List α}
    (ha : a.Nodup) : (idxUnion a b).Nodup := by
  unfold idxUnion
  split
  · exact ha
  · exact ((List.perm_insertionSort _ _).nodup_iff).mpr (List.nodup_dedup _)

theorem insertionSort_sorted_eq {α : Type} [LinearOrder α] {l : List α}
    (h : List.Sorted (fun x y => x ≤ y) l) :
    List.insertionSort (fun x y => x ≤ y) l = l :=
  List.eq_of_perm_of_sorted (List.perm_insertionSort _ l)
    (List.sorted_insertionSort _ l) h

theorem idxUnion_eq_right {α : Type} [LinearOrder α] [DecidableEq α] {a R : List α}
    (hsub : ∀ x ∈ a, x ∈ R)
    (h : a = R ∨ (R.Nodup ∧ List.Sorted (fun x y => x ≤ y) R)) :
    idxUnion a R = R := by
  unfold idxUnion
  split
  case isTrue heq => exact heq
  case isFalse hne =>
    rcases h with heq | ⟨hnd, hsorted⟩
    · exact absurd heq hne
    · refine List.eq_of_perm_of_sorted ?_ (List.sorted_insertionSort _ _) hsorted
      refine (List.perm_insertionSort _ _).trans ?_
      rw [List.perm_ext_iff_of_nodup (List.nodup_dedup _) hnd]
      intro x
      rw [List.mem_dedup, List.mem_append]
      constructor
      · rintro (hx | hx)
        · exact hsub x hx
        · exact hx
      · exact fun hx => Or.inr hx

theorem lookup_combine (n o : DF) (i : Int) (c : Str) :
    (n.combine_first o).lookup i c =
      if i ∈ idxUnion n.rows o.rows ∧ c ∈ idxUnion n.cols o.cols
      then (n.lookup i c).or (o.lookup i c) else none :=
  cellsLookup_canonCells _ _ _ i c

theorem lookup_none_of_out {df : DF} (hwf : df.WF) {i : Int} {c : Str}
    (h : i ∉ df.rows ∨ c ∉ df.cols) : df.lookup i c = none := by
  unfold DF.lookup cellsLookup
  rw [List.find?_eq_none.mpr]
  · rfl
  · intro e he
    simp only [beq_iff_eq]
    intro hcontra
    have hb := hwf.2.2.2 e he
    rw [hcontra] at hb
    simp only at hb
    rcases h with h | h
    · exact h hb.1
    · exact h hb.2

theorem lookup_sortCols (df : DF) (i : Int) (c : Str) :
    df.sortCols.lookup i c =
      if i ∈ df.rows ∧ c ∈ df.cols then df.lookup i c else none := by
  show cellsLookup (canonCells _ _ _) i c = _
  rw [cellsLookup_canonCells]
  by_cases hi : i ∈ df.rows <;> by_cases hc : c ∈ df.cols <;>
    simp [hi, hc, (List.perm_insertionSort (fun a b => a ≤ b) df.cols).mem_iff]

theorem rows_save_csv_some (n o : DF) :
    (save_csv (some o) n).rows = idxUnion n.rows o.rows := rfl

end CsvLemmas

/-- C1: merging a new batch into an existing table yields, for every
identifier/column cell, the new batch's value when present and otherwise the
old table's value; identifiers present only in the old table are kept and
identifiers present only in the new batch are added. -/
theorem C1_merge_prefer_new (n o : DF) (hn : n.WF) (ho : o.WF) :
    (∀ i c, (save_csv (some o) n).lookup i c = (n.lookup i c).or (o.lookup i c)) ∧
    (∀ i, i ∈ (save_csv (some o) n).rows ↔ (i ∈ n.rows ∨ i ∈ o.rows)) := by
  constructor
  · intro i c
    show ((n.combine_first o).sortCols).lookup i c = _
    rw [CsvLemmas.lookup_sortCols, CsvLemmas.lookup_combine]
    show (if i ∈ idxUnion n.rows o.rows ∧ c ∈ idxUnion n.cols o.cols then _ else _) = _
    by_cases hi : i ∈ idxUnion n.rows o.rows
    · by_cases hc : c ∈ idxUnion n.cols o.cols
      · rw [if_pos ⟨hi, hc⟩, if_pos ⟨hi, hc⟩]
      · rw [if_neg (fun h => hc h.2)]
        rw [CsvLemmas.mem_idxUnion] at hc
        push_neg at hc
        rw [CsvLemmas.lookup_none_of_out hn (Or.inr hc.1),
            CsvLemmas.lookup_none_of_out ho (Or.inr hc.2)]
        rfl
    · rw [if_neg (fun h => hi h.1)]
      rw [CsvLemmas.mem_idxUnion] at hi
      push_neg at hi
      rw [CsvLemmas.lookup_none_of_out hn (Or.inl hi.1),
          CsvLemmas.lookup_none_of_out ho (Or.inl hi.2)]
      rfl
  · intro i
    rw [CsvLemmas.rows_save_csv_some]
    exact CsvLemmas.mem_idxUnion _ _

/-- Witness for C1 at the spec's example: old `{a: {x:1, y:2}}` (identifier
`a` as 0), new `{a: {x:9}}`; the merged table is `{a: {x:9, y:2}}`. -/
theorem C1_merge_prefer_new_witness :
    (save_csv (some ⟨str "id", [0], [str "x", str "y"],
        [((0, str "x"), 1), ((0, str "y"), 2)]⟩)
        ⟨str "id", [0], [str "x"], [((0, str "x"), 9)]⟩).lookup 0 (str "y") =
      ((⟨str "id", [0], [str "x"], [((0, str "x"), 9)]⟩ : DF).lookup 0 (str "y")).or
        ((⟨str "id", [0], [str "x", str "y"],
          [((0, str "x"), 1), ((0, str "y"), 2)]⟩ : DF).lookup 0 (str "y")) ∧
    (save_csv (some ⟨str "id", [0], [str "x", str "y"],
        [((0, str "x"), 1), ((0, str "y"), 2)]⟩)
        ⟨str "id", [0], [str "x"], [((0, str "x"), 9)]⟩).lookup 0 (str "y") = some 2 ∧
    (save_csv (some ⟨str "id", [0], [str "x", str "y"],
        [((0, str "x"), 1), ((0, str "y"), 2)]⟩)
        ⟨str "id", [0], [str "x"], [((0, str "x"), 9)]⟩).lookup 0 (str "x") = some 9 :=
  ⟨(C1_merge_prefer_new
      ⟨str "id", [0], [str "x"], [((0, str "x"), 9)]⟩
      ⟨str "id", [0], [str "x", str "y"], [((0, str "x"), 1), ((0, str "y"), 2)]⟩
      (by decide) (by decide)).1 0 (str "y"),
   by decide, by decide⟩

/-- C6: every table written by the Result Table Accumulator has its non-index
columns sorted lexicographically (`≤` on `Str` is the lexicographic order on
character lists), regardless of the column order of the batch or of any
previously persisted table. -/
theorem C6_sorted_columns (store : Option DF) (df : DF) :
    List.Sorted (fun a b => a ≤ b) (save_csv store df).cols := by
  cases store <;> exact List.sorted_insertionSort _ _

namespace CsvLemmas

theorem df_ext {d1 d2 : DF} (h1 : d1.indexName = d2.indexName)
    (h2 : d1.rows = d2.rows) (h3 : d1.cols = d2.cols) (h4 : d1.cells = d2.cells) :
    d1 = d2 := by
  cases d1
  cases d2
  simp_all

theorem idxUnion_self {α : Type} [LinearOrder α] [DecidableEq α] (a : List α) :
    idxUnion a a = a := by
  unfold idxUnion
  rw [if_pos rfl]

theorem idxUnion_self_or {α : Type} [LinearOrder α] [DecidableEq α]
    (a b : List α) :
    a = idxUnion a b ∨
      ((idxUnion a b).Nodup ∧ List.Sorted (fun x y => x ≤ y) (idxUnion a b)) := by
  unfold idxUnion
  split
  · exact Or.inl rfl
  · exact Or.inr ⟨((List.perm_insertionSort _ _).nodup_iff).mpr (List.nodup_dedup _),
      List.sorted_insertionSort _ _⟩

/-- A table `T1` that `save_csv` has produced is a fixed point of a further
`save_csv` run with a batch `n` whose content `T1` already absorbs. -/
theorem save_csv_fix {n T1 : DF}
    (h1 : idxUnion n.rows T1.rows = T1.rows)
    (h2 : idxUnion n.cols T1.cols = T1.cols)
    (h3 : List.Sorted (fun a b => a ≤ b) T1.cols)
    (h4 : T1.indexName = n.indexName)
    (h5 : ∀ i c, i ∈ T1.rows → c ∈ T1.cols →
      (n.lookup i c).or (T1.lookup i c) = T1.lookup i c)
    (h6 : T1.cells = canonCells T1.rows T1.cols T1.lookup) :
    save_csv (some T1) n = T1 := by
  show (n.combine_first T1).sortCols = T1
  have hlk : ∀ i ∈ T1.rows, ∀ c ∈ T1.cols,
      (n.combine_first T1).lookup i c = T1.lookup i c := by
    intro i hi c hc
    rw [lookup_combine, h1, h2, if_pos ⟨hi, hc⟩]
    exact h5 i c hi hc
  apply df_ext
  · exact h4.symm
  · exact h1
  · show List.insertionSort _ (idxUnion n.cols T1.cols) = T1.cols
    rw [h2]
    exact insertionSort_sorted_eq h3
  · show canonCells (idxUnion n.rows T1.rows)
        (List.insertionSort _ (idxUnion n.cols T1.cols))
        (n.combine_first T1).lookup = T1.cells
    rw [h1, h2, insertionSort_sorted_eq h3, h6]
    exact canonCells_congr hlk

end CsvLemmas

/-- C2: running the Result Table Accumulator twice with the same batch against
the same destination yields the same persisted table as running it once
(whether or not a table already existed at the destination). -/
theorem C2_merge_idempotent (store : Option DF) (n : DF) (hn : n.WF)
    (hst : ∀ o ∈ store, o.WF) :
    save_csv (some (save_csv store n)) n = save_csv store n := by
  cases store with
  | none =>
    apply CsvLemmas.save_csv_fix
    · exact CsvLemmas.idxUnion_self n.rows
    · apply CsvLemmas.idxUnion_eq_right
      · exact fun x hx => ((List.perm_insertionSort _ _).mem_iff).mpr hx
      · exact Or.inr ⟨((List.perm_insertionSort _ _).nodup_iff).mpr hn.2.1,
          List.sorted_insertionSort _ _⟩
    · exact List.sorted_insertionSort _ _
    · rfl
    · intro i c hi hc
      have hc2 : c ∈ n.cols := ((List.perm_insertionSort _ _).mem_iff).mp hc
      have hl : (save_csv none n).lookup i c = n.lookup i c := by
        show n.sortCols.lookup i c = n.lookup i c
        rw [CsvLemmas.lookup_sortCols, if_pos ⟨hi, hc2⟩]
      rw [hl]
      exact CsvLemmas.or_self _
    · show canonCells n.rows _ n.lookup = canonCells n.rows _ (save_csv none n).lookup
      apply CsvLemmas.canonCells_congr
      intro i hi c hc
      have hc2 : c ∈ n.cols := ((List.perm_insertionSort _ _).mem_iff).mp hc
      show n.lookup i c = n.sortCols.lookup i c
      rw [CsvLemmas.lookup_sortCols, if_pos ⟨hi, hc2⟩]
  | some o =>
    have hmemR : ∀ x ∈ n.rows, x ∈ idxUnion n.rows o.rows :=
      fun x hx => (CsvLemmas.mem_idxUnion _ _).mpr (Or.inl hx)
    have hmemU : ∀ x ∈ n.cols, x ∈ idxUnion n.cols o.cols :=
      fun x hx => (CsvLemmas.mem_idxUnion _ _).mpr (Or.inl hx)
    have hUnodup : (idxUnion n.cols o.cols).Nodup := CsvLemmas.nodup_idxUnion hn.2.1
    have hlkT1 : ∀ i c, i ∈ idxUnion n.rows o.rows → c ∈ idxUnion n.cols o.cols →
        (save_csv (some o) n).lookup i c = (n.lookup i c).or (o.lookup i c) := by
      intro i c hi hc
      show ((n.combine_first o).sortCols).lookup i c = _
      rw [CsvLemmas.lookup_sortCols, if_pos ⟨hi, hc⟩, CsvLemmas.lookup_combine,
        if_pos ⟨hi, hc⟩]
    apply CsvLemmas.save_csv_fix
    · apply CsvLemmas.idxUnion_eq_right hmemR
      rcases CsvLemmas.idxUnion_self_or n.rows o.rows with h | h
      · exact Or.inl h
      · exact Or.inr h
    · apply CsvLemmas.idxUnion_eq_right
      · exact fun x hx => ((List.perm_insertionSort _ _).mem_iff).mpr (hmemU x hx)
      · exact Or.inr ⟨((List.perm_insertionSort _ _).nodup_iff).mpr hUnodup,
          List.sorted_insertionSort _ _⟩
    · exact List.sorted_insertionSort _ _
    · rfl
    · intro i c hi hc
      have hc2 : c ∈ idxUnion n.cols o.cols :=
        ((List.perm_insertionSort _ _).mem_iff).mp hc
      rw [hlkT1 i c hi hc2]
      exact CsvLemmas.or_self_or _ _
    · show canonCells _ _ (n.combine_first o).lookup =
        canonCells _ _ (save_csv (some o) n).lookup
      apply CsvLemmas.canonCells_congr
      intro i hi c hc
      have hc2 : c ∈ idxUnion n.cols o.cols :=
        ((List.perm_insertionSort _ _).mem_iff).mp hc
      rw [hlkT1 i c hi hc2, CsvLemmas.lookup_combine, if_pos ⟨hi, hc2⟩]

/-- Witness for C2: both with an existing stored table and with none. -/
theorem C2_merge_idempotent_witness :
    save_csv (some (save_csv (some ⟨str "id", [0], [str "x", str "y"],
        [((0, str "x"), 1), ((0, str "y"), 2)]⟩)
        ⟨str "id", [0], [str "x"], [((0, str "x"), 9)]⟩))
      ⟨str "id", [0], [str "x"], [((0, str "x"), 9)]⟩ =
      save_csv (some ⟨str "id", [0], [str "x", str "y"],
        [((0, str "x"), 1), ((0, str "y"), 2)]⟩)
        ⟨str "id", [0], [str "x"], [((0, str "x"), 9)]⟩ ∧
    save_csv (some (save_csv none ⟨str "id", [3, 1], [str "y", str "x"],
        [((3, str "y"), 5), ((1, str "x"), 4)]⟩))
      ⟨str "id", [3, 1], [str "y", str "x"], [((3, str "y"), 5), ((1, str "x"), 4)]⟩ =
      save_csv none ⟨str "id", [3, 1], [str "y", str "x"],
        [((3, str "y"), 5), ((1, str "x"), 4)]⟩ :=
  ⟨C2_merge_idempotent
      (some ⟨str "id", [0], [str "x", str "y"], [((0, str "x"), 1), ((0, str "y"), 2)]⟩)
      ⟨str "id", [0], [str "x"], [((0, str "x"), 9)]⟩
      (by decide) (by intro o ho; simp at ho; subst ho; decide),
   C2_merge_idempotent none
      ⟨str "id", [3, 1], [str "y", str "x"], [((3, str "y"), 5), ((1, str "x"), 4)]⟩
      (by decide) (by intro o ho; simp at ho)⟩

/-! ## Run configuration snapshot (`save_args_as_json`, lines 114-140) -/

namespace SnapshotLemmas

theorem findSnapshotPath_fresh (fs : List (Str × Nat)) (dir : Str) :
    ∀ (fuel : Nat) (path p : Str),
      findSnapshotPath fs dir fuel path = some p → p ∉ fs.map Prod.fst := by
  intro fuel
  induction fuel with
  | zero =>
    intro path p h
    unfold findSnapshotPath at h
    split at h
    · cases h
    · cases h
      assumption
  | succ n ih =>
    intro path p h
    unfold findSnapshotPath at h
    split at h
    · exact ih _ p h
    · cases h
      assumption

end SnapshotLemmas

/-- Concrete run of the snapshotter: next to an existing
`out/predict_options.json` the second snapshot lands at
`out/predict_options.0.json`, and a third at `out/predict_options.1.json`. -/
theorem save_args_concrete_eval :
    save_args_as_json [(str "out/predict_options.json", 11)] (str "out") 22 =
      some [(str "out/predict_options.json", 11),
        (str "out/predict_options.0.json", 22)] ∧
    save_args_as_json [(str "out/predict_options.json", 11),
        (str "out/predict_options.0.json", 22)] (str "out") 33 =
      some [(str "out/predict_options.json", 11),
        (str "out/predict_options.0.json", 22),
        (str "out/predict_options.1.json", 33)] := by
  constructor <;> decide

namespace DigitLemmas

theorem natDigitsAux_irrel : ∀ f1 : Nat, ∀ n, n < f1 → ∀ f2, n < f2 →
    natDigitsAux f1 n = natDigitsAux f2 n := by
  intro f1
  induction f1 with
  | zero => intro n h; omega
  | succ f ih =>
    intro n h f2 h2
    cases f2 with
    | zero => omega
    | succ g =>
      show natDigitsAux (f + 1) n = natDigitsAux (g + 1) n
      unfold natDigitsAux
      by_cases h10 : n < 10
      · rw [if_pos h10, if_pos h10]
      · rw [if_neg h10, if_neg h10]
        have hdiv : n / 10 < n := Nat.div_lt_self (by omega) (by omega)
        rw [ih (n / 10) (by omega) g (by omega)]

theorem natDigits_unfold (n : Nat) :
    natDigits n = if n < 10 then [Char.ofNat (48 + n)]
      else natDigits (n / 10) ++ [Char.ofNat (48 + n % 10)] := by
  show natDigitsAux (n + 1) n = _
  unfold natDigitsAux
  by_cases h10 : n < 10
  · rw [if_pos h10, if_pos h10]
  · rw [if_neg h10, if_neg h10]
    have hdiv : n / 10 < n := Nat.div_lt_self (by omega) (by omega)
    rw [natDigitsAux_irrel n (n / 10) (by omega) (n / 10 + 1) (by omega)]
    rfl

theorem natDigits_ne_nil (n : Nat) : natDigits n ≠ [] := by
  rw [natDigits_unfold]
  split <;> simp

theorem ofNat_digit_isDigit {d : Nat} (h : d < 10) :
    (Char.ofNat (48 + d)).isDigit = true := by
  interval_cases d <;> decide

theorem toNat_ofNat_digit {d : Nat} (h : d < 10) :
    (Char.ofNat (48 + d)).toNat = 48 + d := by
  interval_cases d <;> decide

theorem mem_natDigits_digit {n : Nat} {ch : Char} (h : ch ∈ natDigits n) :
    ch.isDigit = true := by
  induction n using Nat.strong_induction_on with
  | _ n ih =>
    rw [natDigits_unfold] at h
    by_cases h10 : n < 10
    · rw [if_pos h10] at h
      simp at h
      subst h
      exact ofNat_digit_isDigit h10
    · rw [if_neg h10] at h
      simp only [List.mem_append, List.mem_singleton] at h
      rcases h with h | h
      · exact ih (n / 10) (Nat.div_lt_self (by omega) (by omega)) h
      · subst h
        exact ofNat_digit_isDigit (Nat.mod_lt _ (by omega))

theorem pyIsdigit_natDigits (n : Nat) : pyIsdigit (natDigits n) = true := by
  unfold pyIsdigit
  rw [Bool.and_eq_true]
  constructor
  · cases hn : natDigits n with
    | nil => exact absurd hn (natDigits_ne_nil n)
    | cons a t => rfl
  · rw [List.all_eq_true]
    intro ch hch
    exact mem_natDigits_digit hch

theorem digitsToNat_append_single (a : Str) (d : Char) :
    digitsToNat (a ++ [d]) = digitsToNat a * 10 + (d.toNat - 48) := by
  unfold digitsToNat
  rw [List.foldl_append]
  rfl

theorem digitsToNat_natDigits (n : Nat) : digitsToNat (natDigits n) = n := by
  induction n using Nat.strong_induction_on with
  | _ n ih =>
    rw [natDigits_unfold]
    by_cases h10 : n < 10
    · rw [if_pos h10]
      show digitsToNat [Char.ofNat (48 + n)] = n
      unfold digitsToNat
      simp only [List.foldl_cons, List.foldl_nil]
      rw [toNat_ofNat_digit h10]
      omega
    · rw [if_neg h10, digitsToNat_append_single,
        ih (n / 10) (Nat.div_lt_self (by omega) (by omega)),
        toNat_ofNat_digit (Nat.mod_lt _ (by omega))]
      omega

theorem natDigits_injective {m n : Nat} (h : natDigits m = natDigits n) : m = n := by
  have := digitsToNat_natDigits m
  rw [h, digitsToNat_natDigits] at this
  omega

theorem not_mem_natDigits {ch : Char} (hch : ch.isDigit = false) (n : Nat) :
    ch ∉ natDigits n := by
  intro hm
  rw [mem_natDigits_digit hm] at hch
  cases hch

theorem headD_natDigits_ne_dash (n : Nat) : (natDigits n).headD ' ' ≠ '-' := by
  cases hn : natDigits n with
  | nil => exact absurd hn (natDigits_ne_nil n)
  | cons a t =>
    show a ≠ '-'
    intro ha
    have : a ∈ natDigits n := by rw [hn]; exact List.mem_cons_self a t
    have := mem_natDigits_digit this
    rw [ha] at this
    cases this

end DigitLemmas

namespace SplitAppendLemmas

theorem getLastD_default_irrel {α : Type} {l : List α} (h : l ≠ []) (d1 d2 : α) :
    l.getLastD d1 = l.getLastD d2 := by
  cases l with
  | nil => exact absurd rfl h
  | cons a t =>
    rw [List.getLastD_eq_getLast?, List.getLastD_eq_getLast?]
    have hs : (a :: t).getLast?.isSome := by
      rw [List.getLast?_isSome]
      simp
  
    obtain ⟨x, hx⟩ := Option.isSome_iff_exists.mp hs
    rw [hx]
    rfl

theorem getD_last_of_ne_nil {α : Type} {l : List α} (h : l ≠ []) (d : α) :
    l.getD (l.length - 1) d = l.getLastD d := by
  induction l with
  | nil => exact absurd rfl h
  | cons x xs ih =>
    cases hxs : xs with
    | nil => simp
    | cons y ys =>
      rw [← hxs]
      have hne : xs ≠ [] := by rw [hxs]; simp
      have hl : (x :: xs).length - 1 = (xs.length - 1) + 1 := by
        rw [hxs]
        simp
      rw [hl, List.getD_cons_succ, ih hne, List.getLastD_cons]
      exact getLastD_default_irrel hne d x

theorem splitOnChar_sep_append (c : Char) (u v : Str) :
    splitOnChar c (u ++ c :: v) = splitOnChar c u ++ splitOnChar c v := by
  induction u with
  | nil =>
    show splitOnChar c (c :: v) = splitOnChar c [] ++ splitOnChar c v
    simp only [splitOnChar]
    cases hv : splitOnChar c v with
    | nil => exact absurd hv (splitOnChar_ne_nil c v)
    | cons h t => simp
  | cons x xs ih =>
    cases hxs : splitOnChar c xs with
    | nil => exact absurd hxs (splitOnChar_ne_nil c xs)
    | cons h t =>
      have hl : splitOnChar c (xs ++ c :: v) = h :: (t ++ splitOnChar c v) := by
        rw [ih, hxs]
        rfl
      show splitOnChar c (x :: (xs ++ c :: v)) = splitOnChar c (x :: xs) ++ splitOnChar c v
      simp only [splitOnChar, hl, hxs]
      by_cases hx : x = c
      · rw [if_pos hx, if_pos hx]
        rfl
      · rw [if_neg hx, if_neg hx]
        rfl

theorem getLastD_split_append {c : Char} {v : Str} (hv : c ∉ v) :
    ∀ u : Str,
      (splitOnChar c (u ++ v)).getLastD [] = (splitOnChar c u).getLastD [] ++ v := by
  intro u
  induction u with
  | nil =>
    rw [List.nil_append, splitOnChar_of_not_mem hv]
    rfl
  | cons x xs ih =>
    cases hxs : splitOnChar c xs with
    | nil => exact absurd hxs (splitOnChar_ne_nil c xs)
    | cons h t =>
      cases hrest : splitOnChar c (xs ++ v) with
      | nil => exact absurd hrest (splitOnChar_ne_nil c (xs ++ v))
      | cons h2 t2 =>
        rw [hxs, hrest] at ih
        have hlen : t2.length = t.length := by
          have e1 := length_splitOnChar c (xs ++ v)
          have e2 := length_splitOnChar c xs
          rw [hrest] at e1
          rw [hxs] at e2
          have hcv : v.count c = 0 := List.count_eq_zero.mpr hv
          rw [List.count_append] at e1
          simp only [List.length_cons] at e1 e2
          omega
        show (splitOnChar c (x :: (xs ++ v))).getLastD [] = _
        simp only [splitOnChar, hrest, hxs]
        by_cases hx : x = c
        · rw [if_pos hx, if_pos hx]
          have e1 : (([] : Str) :: h2 :: t2).getLastD [] = (h2 :: t2).getLastD [] :=
            List.getLastD_cons _ _ _
          have e2 : (([] : Str) :: h :: t).getLastD [] = (h :: t).getLastD [] :=
            List.getLastD_cons _ _ _
          rw [e1, e2]
          exact ih
        · rw [if_neg hx, if_neg hx]
          cases t2 with
          | nil =>
            have ht : t = [] := List.length_eq_zero.mp (by simpa using hlen.symm)
            subst ht
            have e3 : ∀ s : Str, [s].getLastD ([] : Str) = s := by
              intro s
              rw [List.getLastD_cons]
              rfl
            rw [e3, e3]
            rw [e3, e3] at ih
            rw [List.cons_append, ih]
          | cons a b =>
            have ht : t ≠ [] := by
              intro h0
              rw [h0] at hlen
              simp at hlen
            cases t with
            | nil => exact absurd rfl ht
            | cons a2 b2 =>
              have e1 : ((x :: h2) :: a :: b).getLastD ([] : Str) =
                  (a :: b).getLastD (x :: h2) := List.getLastD_cons _ _ _
              have e2 : (h2 :: a :: b).getLastD ([] : Str) =
                  (a :: b).getLastD h2 := List.getLastD_cons _ _ _
              have e3 : ((x :: h) :: a2 :: b2).getLastD ([] : Str) =
                  (a2 :: b2).getLastD (x :: h) := List.getLastD_cons _ _ _
              have e4 : (h :: a2 :: b2).getLastD ([] : Str) =
                  (a2 :: b2).getLastD h := List.getLastD_cons _ _ _
              rw [e1, e3]
              rw [e2, e4] at ih
              rw [@getLastD_default_irrel Str (a :: b) (by simp) (x :: h2) h2,
                @getLastD_default_irrel Str (a2 :: b2) (by simp) (x :: h) h]
              exact ih

end SplitAppendLemmas

namespace SnapStepLemmas

theorem pyJoin_eq_dirPrefix (dir b : Str) : pyJoin dir b = dirPrefix dir ++ b := by
  unfold pyJoin dirPrefix
  by_cases h1 : dir = []
  · rw [if_pos h1, if_pos h1]
    exact (List.nil_append b).symm
  · rw [if_neg h1, if_neg h1]
    by_cases h2 : dir.getLast? = some '/'
    · rw [if_pos h2, if_pos h2]
    · rw [if_neg h2, if_neg h2]
      simp

theorem nextSnapshotPath_of_number {dir p num : Str}
    (h : (splitOnChar '.' p).getD ((splitOnChar '.' p).length - 2) [] = num) :
    nextSnapshotPath dir p = pyJoin dir (joinStr (str ".")
      [str "predict_options",
       pyStr (pyInt (if pyIsdigit num then num else str "-1") + 1), str "json"]) := by
  have e : nextSnapshotPath dir p = pyJoin dir (joinStr (str ".")
      [str "predict_options",
       pyStr (pyInt (if pyIsdigit ((splitOnChar '.' p).getD
           ((splitOnChar '.' p).length - 2) [])
         then (splitOnChar '.' p).getD ((splitOnChar '.' p).length - 2) []
         else str "-1") + 1), str "json"]) := rfl
  rw [e, h]

theorem joinStr_snapshot (nd : Str) :
    joinStr (str ".") [str "predict_options", nd, str "json"] =
      str "predict_options." ++ nd ++ str ".json" := by
  show (str "predict_options" ++ str ".") ++ (nd ++ str "." ++ str "json") = _
  have l1 : str "predict_options." = str "predict_options" ++ str "." := rfl
  have l2 : str ".json" = str "." ++ str "json" := rfl
  rw [l1, l2]
  simp [List.append_assoc]

theorem pyStr_succ_nat (k : Nat) : pyStr ((k : Int) + 1) = natDigits (k + 1) := by
  unfold pyStr
  rw [if_neg (by omega)]
  have e : ((k : Int) + 1).toNat = k + 1 := by omega
  rw [e]

theorem pyInt_natDigits (k : Nat) : pyInt (natDigits k) = (k : Int) := by
  unfold pyInt
  rw [if_neg (DigitLemmas.headD_natDigits_ne_dash k), DigitLemmas.digitsToNat_natDigits]

theorem pyIsdigit_append_po (w : Str) :
    pyIsdigit (w ++ str "predict_options") = false := by
  unfold pyIsdigit
  rw [List.all_append]
  have h : (str "predict_options").all (fun ch => ch.isDigit) = false := by decide
  rw [h]
  simp

theorem snap_step_numbered (dir : Str) (k : Nat) :
    nextSnapshotPath dir (snapIter dir (k + 1)) = snapIter dir (k + 2) := by
  have hdot1 : ('.' : Char) ∉ natDigits k := DigitLemmas.not_mem_natDigits (by decide) k
  have hdotj : ('.' : Char) ∉ str "json" := by decide
  have hpath : snapIter dir (k + 1) =
      (dirPrefix dir ++ str "predict_options") ++
        '.' :: (natDigits k ++ '.' :: str "json") := by
    show pyJoin dir (str "predict_options." ++ natDigits k ++ str ".json") = _
    rw [pyJoin_eq_dirPrefix]
    have l1 : str "predict_options." = str "predict_options" ++ ['.'] := rfl
    have l2 : str ".json" = '.' :: str "json" := rfl
    rw [l1, l2]
    simp [List.append_assoc]
  have hsplit : splitOnChar '.' (snapIter dir (k + 1)) =
      splitOnChar '.' (dirPrefix dir ++ str "predict_options") ++
        [natDigits k, str "json"] := by
    rw [hpath, SplitAppendLemmas.splitOnChar_sep_append,
      SplitAppendLemmas.splitOnChar_sep_append,
      splitOnChar_of_not_mem hdot1, splitOnChar_of_not_mem hdotj]
    rfl
  have hnum : (splitOnChar '.' (snapIter dir (k + 1))).getD
      ((splitOnChar '.' (snapIter dir (k + 1))).length - 2) [] = natDigits k := by
    rw [hsplit, List.length_append]
    have e : (splitOnChar '.' (dirPrefix dir ++ str "predict_options")).length +
        ([natDigits k, str "json"] : List Str).length - 2 =
        (splitOnChar '.' (dirPrefix dir ++ str "predict_options")).length := by
      simp
    rw [e, List.getD_append_right _ _ _ _ (le_refl _)]
    simp
  rw [nextSnapshotPath_of_number hnum, DigitLemmas.pyIsdigit_natDigits,
    if_pos rfl, pyInt_natDigits, pyStr_succ_nat, joinStr_snapshot]
  rfl

theorem snap_step_base (dir : Str) :
    nextSnapshotPath dir (snapIter dir 0) = snapIter dir 1 := by
  have hdotp : ('.' : Char) ∉ str "predict_options" := by decide
  have hdotj : ('.' : Char) ∉ str "json" := by decide
  have hpath : snapIter dir 0 =
      (dirPrefix dir ++ str "predict_options") ++ '.' :: str "json" := by
    show pyJoin dir (str "predict_options.json") = _
    rw [pyJoin_eq_dirPrefix]
    have l1 : str "predict_options.json" = str "predict_options" ++ '.' :: str "json" := rfl
    rw [l1]
    simp [List.append_assoc]
  have hsplit : splitOnChar '.' (snapIter dir 0) =
      splitOnChar '.' (dirPrefix dir ++ str "predict_options") ++ [str "json"] := by
    rw [hpath, SplitAppendLemmas.splitOnChar_sep_append,
      splitOnChar_of_not_mem hdotj]
  have hm : 1 ≤ (splitOnChar '.' (dirPrefix dir ++ str "predict_options")).length :=
    List.length_pos.mpr (splitOnChar_ne_nil _ _)
  have hnum : (splitOnChar '.' (snapIter dir 0)).getD
      ((splitOnChar '.' (snapIter dir 0)).length - 2) [] =
      (splitOnChar '.' (dirPrefix dir)).getLastD [] ++ str "predict_options" := by
    rw [hsplit, List.length_append]
    have e : (splitOnChar '.' (dirPrefix dir ++ str "predict_options")).length +
        ([str "json"] : List Str).length - 2 =
        (splitOnChar '.' (dirPrefix dir ++ str "predict_options")).length - 1 := by
      simp
    rw [e, List.getD_append _ _ _ _ (by omega),
      SplitAppendLemmas.getD_last_of_ne_nil (splitOnChar_ne_nil _ _),
      SplitAppendLemmas.getLastD_split_append hdotp]
  rw [nextSnapshotPath_of_number hnum, pyIsdigit_append_po, if_neg (by simp)]
  have h1 : pyInt (str "-1") + 1 = 0 := by decide
  rw [h1]
  have h0 : pyStr 0 = natDigits 0 := rfl
  rw [h0, joinStr_snapshot]
  rfl

theorem step_snapIter (dir : Str) (j : Nat) :
    nextSnapshotPath dir (snapIter dir j) = snapIter dir (j + 1) := by
  cases j with
  | zero => exact snap_step_base dir
  | succ k => exact snap_step_numbered dir k

end SnapStepLemmas

namespace SnapTermLemmas

theorem snapIter_zero_ne_succ (dir : Str) (k : Nat) :
    snapIter dir 0 ≠ snapIter dir (k + 1) := by
  intro h
  rw [show snapIter dir 0 = pyJoin dir (str "predict_options.json") from rfl,
    show snapIter dir (k + 1) =
      pyJoin dir (str "predict_options." ++ natDigits k ++ str ".json") from rfl,
    SnapStepLemmas.pyJoin_eq_dirPrefix, SnapStepLemmas.pyJoin_eq_dirPrefix] at h
  have h2 := List.append_cancel_left h
  have h3 := congrArg List.length h2
  rw [List.length_append, List.length_append] at h3
  have a1 : (str "predict_options.json").length = 20 := by decide
  have a2 : (str "predict_options.").length = 16 := by decide
  have a3 : (str ".json").length = 5 := by decide
  rw [a1, a2, a3] at h3
  omega

theorem snapIter_succ_inj (dir : Str) {k k2 : Nat}
    (h : snapIter dir (k + 1) = snapIter dir (k2 + 1)) : k = k2 := by
  rw [show snapIter dir (k + 1) =
      pyJoin dir (str "predict_options." ++ natDigits k ++ str ".json") from rfl,
    show snapIter dir (k2 + 1) =
      pyJoin dir (str "predict_options." ++ natDigits k2 ++ str ".json") from rfl,
    SnapStepLemmas.pyJoin_eq_dirPrefix, SnapStepLemmas.pyJoin_eq_dirPrefix] at h
  have h2 := List.append_cancel_left h
  rw [List.append_assoc, List.append_assoc] at h2
  have h3 := List.append_cancel_left h2
  have h4 := List.append_cancel_right h3
  exact DigitLemmas.natDigits_injective h4

theorem snapIter_inj (dir : Str) {j j2 : Nat}
    (h : snapIter dir j = snapIter dir j2) : j = j2 := by
  cases j with
  | zero =>
    cases j2 with
    | zero => rfl
    | succ k => exact absurd h (snapIter_zero_ne_succ dir k)
  | succ k =>
    cases j2 with
    | zero => exact absurd h.symm (snapIter_zero_ne_succ dir k)
    | succ k2 => rw [snapIter_succ_inj dir h]

theorem find_some_of_free (fs : List (Str × Nat)) (dir : Str) :
    ∀ (fuel j₀ : Nat),
      (∃ j, j ≤ fuel ∧ snapIter dir (j₀ + j) ∉ fs.map Prod.fst) →
      ∃ p, findSnapshotPath fs dir fuel (snapIter dir j₀) = some p := by
  intro fuel
  induction fuel with
  | zero =>
    intro j₀ hex
    obtain ⟨j, hj, hfree⟩ := hex
    have hj0 : j = 0 := by omega
    subst hj0
    rw [Nat.add_zero] at hfree
    refine ⟨snapIter dir j₀, ?_⟩
    unfold findSnapshotPath
    rw [if_neg hfree]
  | succ f ih =>
    intro j₀ hex
    obtain ⟨j, hj, hfree⟩ := hex
    by_cases hmem : snapIter dir j₀ ∈ fs.map Prod.fst
    · unfold findSnapshotPath
      rw [if_pos hmem, SnapStepLemmas.step_snapIter]
      apply ih (j₀ + 1)
      cases j with
      | zero =>
        rw [Nat.add_zero] at hfree
        exact absurd hmem hfree
      | succ j2 =>
        refine ⟨j2, by omega, ?_⟩
        have e : j₀ + 1 + j2 = j₀ + (j2 + 1) := by omega
        rw [e]
        exact hfree
    · refine ⟨snapIter dir j₀, ?_⟩
      unfold findSnapshotPath
      rw [if_neg hmem]

theorem findSnapshotPath_shape (fs : List (Str × Nat)) (dir : Str) :
    ∀ (fuel j₀ : Nat) (p : Str),
      findSnapshotPath fs dir fuel (snapIter dir j₀) = some p →
      ∃ j, p = snapIter dir j := by
  intro fuel
  induction fuel with
  | zero =>
    intro j₀ p h
    unfold findSnapshotPath at h
    split at h
    · cases h
    · cases h
      exact ⟨j₀, rfl⟩
  | succ f ih =>
    intro j₀ p h
    unfold findSnapshotPath at h
    split at h
    · rw [SnapStepLemmas.step_snapIter] at h
      exact ih (j₀ + 1) p h
    · cases h
      exact ⟨j₀, rfl⟩

theorem exists_free_snapIter (fs : List (Str × Nat)) (dir : Str) :
    ∃ j, j ≤ fs.length + 1 ∧ snapIter dir j ∉ fs.map Prod.fst := by
  by_contra hall
  push_neg at hall
  have hnd : ((List.range (fs.length + 2)).map (snapIter dir)).Nodup := by
    refine List.Nodup.map ?_ (List.nodup_range _)
    intro a b hab
    exact snapIter_inj dir hab
  have hsub : ∀ x ∈ (List.range (fs.length + 2)).map (snapIter dir),
      x ∈ fs.map Prod.fst := by
    intro x hx
    rw [List.mem_map] at hx
    obtain ⟨j, hj, rfl⟩ := hx
    rw [List.mem_range] at hj
    exact hall j (by omega)
  have h2 : ((List.range (fs.length + 2)).map (snapIter dir)).length ≤
      (fs.map Prod.fst).length := by
    calc ((List.range (fs.length + 2)).map (snapIter dir)).length
        = ((List.range (fs.length + 2)).map (snapIter dir)).toFinset.card :=
          (List.toFinset_card_of_nodup hnd).symm
      _ ≤ (fs.map Prod.fst).toFinset.card := by
          apply Finset.card_le_card
          intro x hx
          rw [List.mem_toFinset] at hx ⊢
          exact hsub x hx
      _ ≤ (fs.map Prod.fst).length := List.toFinset_card_le _
  rw [List.length_map, List.length_map, List.length_range] at h2
  omega

end SnapTermLemmas

/-- C9: the Run Configuration Snapshotter never overwrites an existing
snapshot: starting from the default name and bumping a numeric suffix, the
search always finds (within one step more than the number of existing files)
a name that is not on disk; the snapshot is written there, every existing
file is left as it was, and the chosen name is one of the candidate names
`predict_options.json`, `predict_options.0.json`, `predict_options.1.json`,
… (`snapIter`). -/
theorem C9_snapshot_non_overwrite (fs : List (Str × Nat)) (dir : Str)
    (content : Nat) :
    ∃ p, p ∉ fs.map Prod.fst ∧
      save_args_as_json fs dir content = some (fs ++ [(p, content)]) ∧
      (∃ j, p = snapIter dir j) ∧
      ∀ e ∈ fs, e ∈ fs ++ [(p, content)] := by
  obtain ⟨p, hp⟩ := SnapTermLemmas.find_some_of_free fs dir (fs.length + 1) 0 (by
    obtain ⟨j, hj, hfree⟩ := SnapTermLemmas.exists_free_snapIter fs dir
    exact ⟨j, hj, by simpa using hfree⟩)
  refine ⟨p, SnapshotLemmas.findSnapshotPath_fresh fs dir _ _ p hp, ?_,
    SnapTermLemmas.findSnapshotPath_shape fs dir _ 0 p hp,
    fun e he => List.mem_append_left _ he⟩
  unfold save_args_as_json
  have e : pyJoin dir (str "predict_options.json") = snapIter dir 0 := rfl
  rw [e, hp]
